import Mathlib

/-!
Verification development for the Aurum Core trading bot (`bot.py`).

The numeric type of the Python program (IEEE float) is embedded as `ℚ`;
the float value `nan` produced by the indicator functions is embedded as
the distinguished constructor `PyFloat.nan`.  Python operations that can
raise (`/` by zero, indexing, `max` of an empty sequence) are embedded in
`Except Unit`, with `.error ()` standing for a raised exception.  Network
reads (`get_bars`, `get_snapshot`, `get_account`, `GET /positions`) are
embedded as explicit inputs: an `Env` record holds the payload each read
would return (`none` = the request failed or returned a falsy payload).
-/

set_option maxRecDepth 1000000

namespace Aurum

/-- Embedding of a Python float that may be the not-a-number sentinel
`float("nan")`.  Ordinary finite values are rationals. -/
inductive PyFloat where
  | nan : PyFloat
  | val (q : ℚ) : PyFloat
deriving DecidableEq

/-- Python division `a / b`: raises `ZeroDivisionError` when `b = 0`. -/
def pydiv (a b : ℚ) : Except Unit ℚ :=
  if b = 0 then .error () else .ok (a / b)

/-- Python list indexing `xs[i]` for a non-negative index: raises
`IndexError` when out of range. -/
def pyidx (xs : List ℚ) (i : ℕ) : Except Unit ℚ :=
  match xs.get? i with
  | some x => .ok x
  | none => .error ()

/-- Python `xs[-1]`: the last element; raises `IndexError` on `[]`. -/
def pyLast (xs : List ℚ) : Except Unit ℚ :=
  match xs.getLast? with
  | some x => .ok x
  | none => .error ()

/-- Python `max(xs)` on a list of numbers: raises `ValueError` on `[]`. -/
def pymax : List ℚ → Except Unit ℚ
  | [] => .error ()
  | [x] => .ok x
  | x :: y :: xs =>
    match pymax (y :: xs) with
    | .ok m => .ok (max x m)
    | .error e => .error e

/-- Python slice `xs[-n:]`.  For `n = 0` the slice `xs[-0:] = xs[0:]` is
the whole list; for `n ≥ 1` it is the last `min n (length xs)` elements. -/
def pySliceLast (xs : List ℚ) (n : ℕ) : List ℚ :=
  if n = 0 then xs else xs.drop (xs.length - n)

/-- Python slice `xs[-a:-b]` for `a b ≥ 1` (used as `vols[-21:-1]`). -/
def pySliceNegNeg (xs : List ℚ) (a b : ℕ) : List ℚ :=
  (xs.take (xs.length - b)).drop (xs.length - a)

/-- Python slice `xs[:-1]`: all elements but the last. -/
def pyDropLast (xs : List ℚ) : List ℚ :=
  xs.take (xs.length - 1)

/-- Python comparison `a > b` where `b` may be `nan`: any comparison with
`nan` is `False`. -/
def pyGT (a : ℚ) (b : PyFloat) : Bool :=
  match b with
  | .nan => false
  | .val q => decide (q < a)

/-! ## Tuned defaults (module-level constants of `bot.py`) -/

def MAX_SYMBOLS_PER_SCAN : ℕ := 40
def MAX_CONCURRENT_POS : ℕ := 5
def RISK_PCT_PER_TRADE : ℚ := 1/100
def TAKE_PROFIT_ATR_MULT : ℚ := 2
def STOP_ATR_MULT : ℚ := 1
def MIN_PRICE : ℚ := 5
def MAX_PRICE : ℚ := 800
def MIN_AVG_VOL : ℚ := 300000
def DRY_RUN : Bool := false

def UNIVERSE : List String :=
  ["AAPL","MSFT","NVDA","TSLA","AMD","META","AMZN","GOOGL","GOOG","NFLX",
   "AVGO","SMCI","ASML","SHOP","UBER","CRM","ADBE","MU","INTC","COIN",
   "PLTR","SQ","ABNB","DELL","ON","KLAC","LRCX","PANW","NOW","ANET",
   "TTD","SNOW","MDB","BABA","PDD","NIO","LI","RIVN","CVNA","DDOG",
   "CRWD","NET","ZS","OKTA","ARM","SOFI","UAL","JPM","BAC","CAT"]

/-! ## Indicators (`sma`, `highest`, `atr` of `bot.py`) -/

/-- `sma(values, n)`: `nan` when `len(values) < n`, else
`sum(values[-n:]) / n`. -/
def sma (values : List ℚ) (n : ℕ) : Except Unit PyFloat :=
  if values.length < n then .ok .nan
  else
    match pydiv (pySliceLast values n).sum (n : ℚ) with
    | .ok q => .ok (.val q)
    | .error e => .error e

/-- `highest(values, n)`: `nan` when `len(values) < n`, else
`max(values[-n:])`. -/
def highest (values : List ℚ) (n : ℕ) : Except Unit PyFloat :=
  if values.length < n then .ok .nan
  else
    match pymax (pySliceLast values n) with
    | .ok m => .ok (.val m)
    | .error e => .error e

/-- The true range appended for loop index `i` in `atr`:
`max(h - l, abs(h - pc), abs(l - pc))` with `h = highs[i]`, `l = lows[i]`,
`pc = closes[i-1]`. -/
def true_range_at (highs lows closes : List ℚ) (i : ℕ) : Except Unit ℚ :=
  match pyidx highs i with
  | .error e => .error e
  | .ok h =>
    match pyidx lows i with
    | .error e => .error e
    | .ok l =>
      match pyidx closes (i - 1) with
      | .error e => .error e
      | .ok pc => .ok (max (h - l) (max |h - pc| |l - pc|))

/-- The `trs` list built by the `for i in range(1, len(closes))` loop. -/
def true_ranges_go (highs lows closes : List ℚ) : List ℕ → Except Unit (List ℚ)
  | [] => .ok []
  | i :: is =>
    match true_range_at highs lows closes i with
    | .error e => .error e
    | .ok t =>
      match true_ranges_go highs lows closes is with
      | .error e => .error e
      | .ok ts => .ok (t :: ts)

def true_ranges (highs lows closes : List ℚ) : Except Unit (List ℚ) :=
  true_ranges_go highs lows closes (List.range' 1 (closes.length - 1))

/-- `atr(highs, lows, closes, n)`: `nan` when `len(closes) < n + 1` or when
fewer than `n` true ranges exist, else the mean of the last `n` true
ranges. -/
def atr (highs lows closes : List ℚ) (n : ℕ) : Except Unit PyFloat :=
  if closes.length < n + 1 then .ok .nan
  else
    match true_ranges highs lows closes with
    | .error e => .error e
    | .ok trs =>
      if trs.length < n then .ok .nan
      else
        match pydiv (pySliceLast trs n).sum (n : ℚ) with
        | .ok q => .ok (.val q)
        | .error e => .error e

/-! ## Data model -/

/-- One bar, restricted to the fields `bot.py` reads: `b["h"]`, `b["l"]`,
`b["c"]`, `b["v"]`. -/
structure Bar where
  h : ℚ
  l : ℚ
  c : ℚ
  v : ℚ
deriving DecidableEq

/-- The snapshot payload, restricted to the field the code reads:
`snap.get("trading_status")` (`none` when the key is absent). -/
structure Snapshot where
  trading_status : Option String
deriving DecidableEq

/-- The candidate dict returned by `analyze_symbol`, fields in source
order. -/
structure Candidate where
  symbol : String
  entry : ℚ
  stop : ℚ
  take : ℚ
  atr : ℚ
  avg_vol : ℚ
  strength : ℚ
deriving DecidableEq

/-- The account payload, restricted to the fields the cycle reads. -/
structure Account where
  trading_blocked : Bool
  buying_power : ℚ
  equity : ℚ
deriving DecidableEq

/-- A position record; the cycle only uses the count, so its contents are
irrelevant. -/
abbrev PositionRec := Unit

/-- The JSON payload of `GET /v2/positions` as seen by `list_positions`:
either a list, or some non-list value. -/
inductive PositionsPayload where
  | plist (ps : List PositionRec) : PositionsPayload
  | nonlist : PositionsPayload
deriving DecidableEq

/-- The arguments of one `place_bracket_order` call made by the cycle. -/
structure BracketOrder where
  symbol : String
  qty : Int
  stop_price : ℚ
  take_profit_price : ℚ
deriving DecidableEq

/-- The read-side of one cycle: the payload each network read would
return.  `none` models a failed request (and, for `snap`, also a falsy
payload). -/
structure Env where
  acct : Option Account
  positionsRes : Option PositionsPayload
  bars : String → Option (List Bar)
  snap : String → Option Snapshot

/-! ## Strategy (`analyze_symbol`) -/

/-- The volume-surge expression of line 134:
`vols[-1] > 1.5 * (sum(vols[-21:-1]) / 20 if len(vols) > 21 else avg_vol)`. -/
def vol_surge_check (vols : List ℚ) (avg_vol : ℚ) : Except Unit Bool :=
  match pyLast vols with
  | .error e => .error e
  | .ok vlast =>
    match (if 21 < vols.length then pydiv (pySliceNegNeg vols 21 1).sum 20 else .ok avg_vol) with
    | .error e => .error e
    | .ok base => .ok (decide ((3/2) * base < vlast))

/-- `analyze_symbol(symbol)`, with the two network reads supplied as
arguments: `bars?` is what `get_bars` returned and `snap?` what
`get_snapshot` returned.  `if not bars or len(bars) < 40` is the single
test `length < 40` (an empty or absent list has length 0).  The two
`PyFloat` matches placed where the source reads the value of `hi20` and
`a` agree with the source on the `nan` case: `last > nan` is `False` (so
`is_breakout` is `False` and the source returns `None`), and `a != a`
holds exactly when `a` is `nan` (so the source returns `None`). -/
def analyze_symbol (symbol : String) (bars? : Option (List Bar))
    (snap? : Option Snapshot) : Except Unit (Option Candidate) :=
  match bars? with
  | none => .ok none
  | some bars =>
    if bars.length < 40 then .ok none else
    let closes := bars.map Bar.c
    let highs := bars.map Bar.h
    let lows := bars.map Bar.l
    let vols := bars.map Bar.v
    match pyLast closes with
    | .error e => .error e
    | .ok last =>
      if ¬ (MIN_PRICE ≤ last ∧ last ≤ MAX_PRICE) then .ok none else
      match pydiv (pySliceLast vols 30).sum ((min 30 vols.length : ℕ) : ℚ) with
      | .error e => .error e
      | .ok avg_vol =>
        if avg_vol < MIN_AVG_VOL then .ok none else
        match highest (pyDropLast highs) 20 with
        | .error e => .error e
        | .ok hi20 =>
          match vol_surge_check vols avg_vol with
          | .error e => .error e
          | .ok vol_surge =>
            if ¬ (pyGT last hi20 && vol_surge) then .ok none else
            match atr highs lows closes 14 with
            | .error e => .error e
            | .ok a =>
              match a with
              | .nan => .ok none
              | .val av =>
                let stop := last - STOP_ATR_MULT * av
                let take := last + TAKE_PROFIT_ATR_MULT * av
                match snap? with
                | none => .ok none
                | some snap =>
                  if snap.trading_status = some "Halted" ∨ snap.trading_status = some "T1"
                  then .ok none
                  else
                    match hi20 with
                    | .nan => .ok none
                    | .val hv =>
                      .ok (some ⟨symbol, last, stop, take, av, avg_vol,
                                 (last - hv) / max (1/100) av⟩)

/-! ## Risk (`position_size`) -/

/-- `position_size(buying_power, entry, stop, risk_pct)`. -/
def position_size (buying_power entry stop risk_pct : ℚ) : Except Unit Int :=
  let risk_dollars := buying_power * risk_pct
  let per_share_risk := max (1/100) (entry - stop)
  match pydiv risk_dollars per_share_risk with
  | .error e => .error e
  | .ok q =>
    let shares := ⌊q⌋
    if buying_power < (shares : ℚ) * entry then
      match pydiv buying_power entry with
      | .error e => .error e
      | .ok q2 => .ok (max 0 ⌊q2⌋)
    else .ok (max 0 shares)

/-! ## Main cycle (`scan_and_trade`) -/

/-- `list_positions()`: the raw payload if it is a list, `[]` otherwise
(also on a failed request). -/
def list_positions (res : Option PositionsPayload) : List PositionRec :=
  match res with
  | some (.plist ps) => ps
  | _ => []

/-- The candidate-collection loop of `scan_and_trade` over a symbol
list. -/
def collect_candidates (env : Env) : List String → Except Unit (List Candidate)
  | [] => .ok []
  | s :: rest =>
    match analyze_symbol s (env.bars s) (env.snap s) with
    | .error e => .error e
    | .ok none => collect_candidates env rest
    | .ok (some idea) =>
      match collect_candidates env rest with
      | .error e => .error e
      | .ok cs => .ok (idea :: cs)

/-- `candidates.sort(key=lambda d: d["strength"], reverse=True)`: a stable
sort placing larger strengths first. -/
def rank_candidates (cs : List Candidate) : List Candidate :=
  cs.mergeSort (fun a b => decide (b.strength ≤ a.strength))

/-- The bracket order dispatched for a candidate:
`place_bracket_order(idea["symbol"], qty, idea["stop"], idea["take"])`. -/
def mkOrder (c : Candidate) (qty : Int) : BracketOrder :=
  ⟨c.symbol, qty, c.stop, c.take⟩

/-- The `for idea in candidates` loop: skip while the sized quantity is
`≤ 0`, dispatch the first viable candidate and `break`. -/
def trade_loop (buying_power : ℚ) : List Candidate → Except Unit (List BracketOrder)
  | [] => .ok []
  | idea :: rest =>
    match position_size buying_power idea.entry idea.stop RISK_PCT_PER_TRADE with
    | .error e => .error e
    | .ok qty =>
      if qty ≤ 0 then trade_loop buying_power rest
      else if DRY_RUN then .ok [] else .ok [mkOrder idea qty]

/-- One cycle of `scan_and_trade`, returning the list of bracket orders
submitted during the cycle. -/
def scan_and_trade (env : Env) : Except Unit (List BracketOrder) :=
  match env.acct with
  | none => .ok []
  | some acct =>
    if acct.trading_blocked then .ok [] else
    let buying_power := acct.buying_power
    let pos := list_positions env.positionsRes
    if MAX_CONCURRENT_POS ≤ pos.length then .ok [] else
    match collect_candidates env (UNIVERSE.take MAX_SYMBOLS_PER_SCAN) with
    | .error e => .error e
    | .ok candidates =>
      if candidates.isEmpty then .ok [] else
      trade_loop buying_power (rank_candidates candidates)

/-! ## Spec-side definitions (used only in theorem statements) -/

/-- The last `n` elements of a list (spec side). -/
def lastN (xs : List ℚ) (n : ℕ) : List ℚ := xs.drop (xs.length - n)

/-- The volumes of the 20 bars preceding the current one (spec side). -/
def priorVols20 (vols : List ℚ) : List ℚ := lastN vols.dropLast 20

/-- The first candidate of a list whose sized quantity is positive,
together with that quantity (spec side). -/
def firstViable (bp : ℚ) : List Candidate → Option (Candidate × Int)
  | [] => none
  | c :: rest =>
    match position_size bp c.entry c.stop RISK_PCT_PER_TRADE with
    | .error _ => none
    | .ok q => if 0 < q then some (c, q) else firstViable bp rest

/-! ## Concrete inputs used by counterexamples and witnesses -/

/-- A snapshot with a tradeable status. -/
def activeSnap : Snapshot := ⟨some "Active"⟩

/-- A completely flat bar. -/
def flatBar : Bar := ⟨10, 10, 10, 400000⟩

/-- 39 flat bars followed by a closing bar whose close pops above the flat
high on a volume spike while every true range in the ATR window is 0. -/
def cexBars : List Bar := List.replicate 39 flatBar ++ [⟨10, 10, 11, 10000000⟩]

/-- The candidate `analyze_symbol` emits on `cexBars`: its stop, entry and
take coincide because the ATR is 0. -/
def cexCand : Candidate := ⟨"AAPL", 11, 11, 11, 0, 720000, 100⟩

/-- 40 flat bars: no breakout and no volume surge. -/
def flat40 : List Bar := List.replicate 40 flatBar

/-- The spec scenario bars: ATR(14) = 2, close 110, prior 20-bar high 108,
volume surge. -/
def scenarioBars : List Bar :=
  List.replicate 39 ⟨108, 106, 107, 400000⟩ ++ [⟨108, 106, 110, 1000000⟩]

/-- The candidate the scenario produces. -/
def scenarioCand : Candidate := ⟨"X", 110, 108, 114, 2, 420000, 1⟩

/-- A cycle environment with zero buying power in which exactly one
candidate is produced (for "AAPL") but its sized quantity is 0. -/
def zeroBpEnv : Env :=
  ⟨some ⟨false, 0, 0⟩, some (.plist []),
   fun s => if s = "AAPL" then some cexBars else none,
   fun _ => some activeSnap⟩

/-- An environment already holding 5 open positions. -/
def fullPosEnv : Env :=
  ⟨some ⟨false, 100000, 100000⟩, some (.plist (List.replicate 5 ())),
   fun _ => none, fun _ => none⟩

/-- An environment whose positions fetch failed and whose only bar data is
the scenario breakout for "AAPL". -/
def posFailEnv : Env :=
  ⟨some ⟨false, 50000, 50000⟩, none,
   fun s => if s = "AAPL" then some scenarioBars else none,
   fun _ => some activeSnap⟩

end Aurum

namespace Aurum

/-! ## Helper lemmas -/

theorem pymax_mem : ∀ (l : List ℚ) (m : ℚ), pymax l = .ok m → m ∈ l := by
  intro l
  induction l with
  | nil => intro m h; simp [pymax] at h
  | cons x xs ih =>
    intro m h
    cases xs with
    | nil =>
      simp only [pymax] at h
      injection h with h
      simp [h]
    | cons y ys =>
      rw [pymax] at h
      cases hm : pymax (y :: ys) with
      | error e => rw [hm] at h; cases h
      | ok m' =>
        rw [hm] at h
        injection h with h
        rcases max_choice x m' with h1 | h1 <;> rw [← h, h1]
        · exact List.mem_cons_self _ _
        · exact List.mem_cons_of_mem _ (ih m' hm)

theorem le_pymax : ∀ (l : List ℚ) (m : ℚ), pymax l = .ok m → ∀ x ∈ l, x ≤ m := by
  intro l
  induction l with
  | nil => intro m h; simp [pymax] at h
  | cons x xs ih =>
    intro m h z hz
    cases xs with
    | nil =>
      simp only [pymax] at h
      injection h with h
      simp only [List.mem_singleton] at hz
      rw [hz, h]
    | cons y ys =>
      rw [pymax] at h
      cases hm : pymax (y :: ys) with
      | error e => rw [hm] at h; cases h
      | ok m' =>
        rw [hm] at h
        injection h with h
        rcases List.mem_cons.mp hz with h1 | h1
        · rw [h1, ← h]; exact le_max_left _ _
        · exact le_trans (ih m' hm z h1) (h ▸ le_max_right x m')

theorem pymax_isOk : ∀ (l : List ℚ), l ≠ [] → ∃ m, pymax l = .ok m := by
  intro l
  induction l with
  | nil => intro h; exact absurd rfl h
  | cons x xs ih =>
    intro _
    cases xs with
    | nil => exact ⟨x, rfl⟩
    | cons y ys =>
      obtain ⟨m, hm⟩ := ih (by simp)
      refine ⟨max x m, ?_⟩
      rw [pymax, hm]

theorem pyidx_isOk (xs : List ℚ) (i : ℕ) (h : i < xs.length) :
    ∃ x, pyidx xs i = .ok x := by
  unfold pyidx
  cases hx : xs.get? i with
  | none => exact absurd (List.get?_eq_none.mp hx) (not_le.mpr h)
  | some x => exact ⟨x, rfl⟩

theorem true_range_at_isOk (highs lows closes : List ℚ) (i : ℕ)
    (h1 : i < highs.length) (h2 : i < lows.length) (h3 : i - 1 < closes.length) :
    ∃ t, true_range_at highs lows closes i = .ok t := by
  obtain ⟨a, ha⟩ := pyidx_isOk highs i h1
  obtain ⟨b, hb⟩ := pyidx_isOk lows i h2
  obtain ⟨c, hc⟩ := pyidx_isOk closes (i - 1) h3
  exact ⟨max (a - b) (max |a - c| |b - c|), by simp only [true_range_at, ha, hb, hc]⟩

theorem true_range_at_nonneg (highs lows closes : List ℚ) (i : ℕ) (t : ℚ)
    (h : true_range_at highs lows closes i = .ok t) : 0 ≤ t := by
  rcases ha : pyidx highs i with e | a <;> simp only [true_range_at, ha] at h
  · cases h
  rcases hb : pyidx lows i with e | b <;> simp only [hb] at h
  · cases h
  rcases hc : pyidx closes (i - 1) with e | c <;> simp only [hc] at h
  · cases h
  injection h with h
  rw [← h]
  exact le_trans (abs_nonneg _) (le_trans (le_max_left _ _) (le_max_right _ _))

theorem true_ranges_go_isOk (highs lows closes : List ℚ) :
    ∀ is : List ℕ,
      (∀ i ∈ is, i < highs.length ∧ i < lows.length ∧ i - 1 < closes.length) →
      ∃ ts, true_ranges_go highs lows closes is = .ok ts := by
  intro is
  induction is with
  | nil => intro _; exact ⟨[], rfl⟩
  | cons i is ih =>
    intro hb
    obtain ⟨h1, h2, h3⟩ := hb i (List.mem_cons_self _ _)
    obtain ⟨t, ht⟩ := true_range_at_isOk highs lows closes i h1 h2 h3
    obtain ⟨ts, hts⟩ := ih (fun j hj => hb j (List.mem_cons_of_mem _ hj))
    exact ⟨t :: ts, by simp only [true_ranges_go, ht, hts]⟩

theorem true_ranges_go_mem (highs lows closes : List ℚ) :
    ∀ (is : List ℕ) (ts : List ℚ),
      true_ranges_go highs lows closes is = .ok ts →
      ∀ t ∈ ts, ∃ i, true_range_at highs lows closes i = .ok t := by
  intro is
  induction is with
  | nil =>
    intro ts h t ht
    injection h with h
    rw [← h] at ht
    cases ht
  | cons i is ih =>
    intro ts h t ht
    rcases h1 : true_range_at highs lows closes i with e | u <;>
      simp only [true_ranges_go, h1] at h
    · cases h
    rcases h2 : true_ranges_go highs lows closes is with e | us <;> simp only [h2] at h
    · cases h
    injection h with h
    rw [← h] at ht
    rcases List.mem_cons.mp ht with h3 | h3
    · exact ⟨i, by rw [h1, h3]⟩
    · exact ih us h2 t h3

theorem atr_isOk (highs lows closes : List ℚ) (n : ℕ) (hn : 1 ≤ n)
    (hh : closes.length ≤ highs.length) (hl : closes.length ≤ lows.length) :
    ∃ r, atr highs lows closes n = .ok r ∧ (closes.length < n + 1 → r = .nan) := by
  unfold atr
  by_cases hshort : closes.length < n + 1
  · exact ⟨.nan, by rw [if_pos hshort], fun _ => rfl⟩
  · rw [if_neg hshort]
    obtain ⟨ts, hts⟩ := true_ranges_go_isOk highs lows closes
      (List.range' 1 (closes.length - 1)) (by
        intro i hi
        obtain ⟨hi1, hi2⟩ := List.mem_range'_1.mp hi
        have hic : i < closes.length := by omega
        exact ⟨lt_of_lt_of_le hic hh, lt_of_lt_of_le hic hl, by omega⟩)
    rw [true_ranges]
    simp only [hts]
    by_cases htr : ts.length < n
    · exact ⟨.nan, by rw [if_pos htr], fun h => absurd h hshort⟩
    · rw [if_neg htr]
      have hn0 : ((n : ℚ)) ≠ 0 := Nat.cast_ne_zero.mpr (by omega)
      refine ⟨.val ((pySliceLast ts n).sum / n), ?_, fun h => absurd h hshort⟩
      simp only [pydiv, if_neg hn0]

theorem atr_val_nonneg (highs lows closes : List ℚ) (n : ℕ) (q : ℚ)
    (h : atr highs lows closes n = .ok (.val q)) : 0 ≤ q := by
  unfold atr at h
  by_cases hshort : closes.length < n + 1
  · rw [if_pos hshort] at h; injection h with h; cases h
  rw [if_neg hshort] at h
  rcases hts : true_ranges highs lows closes with e | ts <;> simp only [hts] at h
  · cases h
  by_cases htr : ts.length < n
  · rw [if_pos htr] at h; injection h with h; cases h
  rw [if_neg htr] at h
  rcases hq : pydiv (pySliceLast ts n).sum (n : ℚ) with e | q' <;> simp only [hq] at h
  · cases h
  injection h with h
  injection h with h
  simp only [pydiv] at hq
  by_cases hn0 : ((n : ℚ)) = 0
  · rw [if_pos hn0] at hq; cases hq
  rw [if_neg hn0] at hq
  injection hq with hq
  rw [← h, ← hq]
  have hsum : 0 ≤ (pySliceLast ts n).sum := by
    apply List.sum_nonneg
    intro x hx
    have hx' : x ∈ ts := by
      unfold pySliceLast at hx
      by_cases hz : n = 0
      · rw [if_pos hz] at hx; exact hx
      · rw [if_neg hz] at hx; exact List.drop_subset _ _ hx
    obtain ⟨i, hi⟩ := true_ranges_go_mem highs lows closes _ ts hts x hx'
    exact true_range_at_nonneg highs lows closes i x hi
  have hnn : (0:ℚ) ≤ (n : ℚ) := Nat.cast_nonneg n
  exact div_nonneg hsum hnn


theorem pySliceLast_eq_lastN (xs : List ℚ) (n : ℕ) (hn : n ≠ 0) :
    pySliceLast xs n = lastN xs n := by
  unfold pySliceLast lastN
  rw [if_neg hn]

/-- C8 (amended: the source quantification must exclude window size 0 —
where Python's `sum(xs[-0:]) / 0` raises `ZeroDivisionError` — and, for
`atr`, highs/lows shorter than closes — where `highs[i]` raises
`IndexError`): for every window size `n ≥ 1`, `sma` and `highest` return
the not-a-number sentinel when `len(values) < n` and never raise; with
sufficient length, `sma` returns the arithmetic mean of the last `n`
elements and `highest` their maximum.  `atr` with `n ≥ 1` and highs/lows
at least as long as closes never raises, and returns the sentinel when
`len(closes) < n + 1`. -/
theorem indicator_sentinel_totality :
    (∀ (values : List ℚ) (n : ℕ), 1 ≤ n →
       (values.length < n → sma values n = .ok .nan ∧ highest values n = .ok .nan) ∧
       (n ≤ values.length →
          sma values n = .ok (.val ((lastN values n).sum / (n : ℚ))) ∧
          ∃ m, highest values n = .ok (.val m) ∧ m ∈ lastN values n ∧
               ∀ x ∈ lastN values n, x ≤ m)) ∧
    (∀ (highs lows closes : List ℚ) (n : ℕ), 1 ≤ n →
       closes.length ≤ highs.length → closes.length ≤ lows.length →
       ∃ r, atr highs lows closes n = .ok r ∧ (closes.length < n + 1 → r = .nan)) := by
  constructor
  · intro values n hn
    have hn0 : n ≠ 0 := by omega
    constructor
    · intro hlt
      exact ⟨by simp only [sma, if_pos hlt], by simp only [highest, if_pos hlt]⟩
    · intro hle
      have hnot : ¬ values.length < n := not_lt.mpr hle
      have hq : ((n:ℚ)) ≠ 0 := Nat.cast_ne_zero.mpr hn0
      constructor
      · simp only [sma, if_neg hnot, pydiv, if_neg hq, pySliceLast_eq_lastN values n hn0]
      · have hlen : (lastN values n).length = n := by
          unfold lastN; rw [List.length_drop]; omega
        have hne : lastN values n ≠ [] := by
          intro hcon
          rw [hcon] at hlen
          simp at hlen
          omega
        obtain ⟨m, hm⟩ := pymax_isOk _ hne
        refine ⟨m, ?_, pymax_mem _ m hm, le_pymax _ m hm⟩
        simp only [highest, if_neg hnot, pySliceLast_eq_lastN values n hn0, hm]
  · intro highs lows closes n hn hh hl
    exact atr_isOk highs lows closes n hn hh hl

/-- C8 counterexample: over all input lists and window sizes the three
indicator functions are not error-free as claimed: `sma([], 0)` evaluates
`sum([]) / 0` and raises `ZeroDivisionError`, and `atr` with highs/lows
shorter than closes raises `IndexError` on `highs[1]`. -/
theorem indicator_error_counterexample :
    sma [] 0 = .error () ∧ atr [] [] [0, 0] 1 = .error () :=
  ⟨by with_unfolding_all rfl, by with_unfolding_all rfl⟩

theorem indicator_sentinel_totality_witness :
    1 ≤ 2 ∧ (2:ℕ) ≤ ([3, 1, 2] : List ℚ).length ∧
    (sma [3, 1, 2] 2 = .ok (.val ((lastN [3, 1, 2] 2).sum / (2 : ℚ))) ∧
     ∃ m, highest [3, 1, 2] 2 = .ok (.val m) ∧ m ∈ lastN [3, 1, 2] 2 ∧
          ∀ x ∈ lastN [3, 1, 2] 2, x ≤ m) ∧
    (∃ r, atr [1, 1] [1, 1] [1, 1] 1 = .ok r ∧
          (([1, 1] : List ℚ).length < 1 + 1 → r = .nan)) :=
  ⟨by decide, by decide,
   (indicator_sentinel_totality.1 [3, 1, 2] 2 (by decide)).2 (by decide),
   indicator_sentinel_totality.2 [1, 1] [1, 1] [1, 1] 1 (by decide) (by decide) (by decide)⟩

/-- C3 (amended: the clause "returns 0 whenever entry ≤ 0" fails — at
`entry = 0` the affordability clamp can never fire, so the unclamped
floor, which may be positive, is returned): for non-negative inputs,
`position_size` raises nothing and never returns a negative value; when
`entry ≤ 0` the result is exactly the unclamped
`floor(buying_power*risk_pct / max(0.01, entry-stop))`. -/
theorem position_size_nonneg (bp entry stop pct : ℚ)
    (hbp : 0 ≤ bp) (hentry : 0 ≤ entry) (hstop : 0 ≤ stop) (hpct : 0 ≤ pct) :
    ∃ n, position_size bp entry stop pct = .ok n ∧ 0 ≤ n ∧
      (entry ≤ 0 → n = ⌊bp * pct / max (1/100) (entry - stop)⌋) := by
  have hpsr : (0:ℚ) < max (1/100) (entry - stop) :=
    lt_of_lt_of_le (by norm_num) (le_max_left _ _)
  have hsh : (0:ℤ) ≤ ⌊bp * pct / max (1/100) (entry - stop)⌋ :=
    Int.floor_nonneg.mpr (div_nonneg (mul_nonneg hbp hpct) hpsr.le)
  unfold position_size
  simp only [pydiv, if_neg hpsr.ne']
  by_cases hclamp : bp < (⌊bp * pct / max (1/100) (entry - stop)⌋ : ℚ) * entry
  · rw [if_pos hclamp]
    have hepos : 0 < entry := by
      rcases lt_or_eq_of_le hentry with h | h
      · exact h
      · exfalso
        rw [← h, mul_zero] at hclamp
        exact absurd hclamp (not_lt.mpr hbp)
    rw [if_neg hepos.ne']
    refine ⟨max 0 ⌊bp / entry⌋, rfl, le_max_left _ _, fun hle => ?_⟩
    exact absurd hepos (not_lt.mpr hle)
  · rw [if_neg hclamp]
    exact ⟨max 0 ⌊bp * pct / max (1/100) (entry - stop)⌋, rfl, le_max_left _ _,
           fun _ => max_eq_right hsh⟩

/-- C3 counterexample: `position_size(100, 0, 0, 0.01)` returns `100`,
not `0`, although `entry = 0 ≤ 0` and every input is non-negative. -/
theorem position_size_zero_entry_counterexample :
    position_size 100 0 0 RISK_PCT_PER_TRADE = .ok 100 ∧ (100:ℤ) ≠ 0 :=
  ⟨by with_unfolding_all rfl, by decide⟩

theorem position_size_nonneg_witness :
    (0:ℚ) ≤ 100 ∧
    ∃ n, position_size 100 0 0 (1/100) = .ok n ∧ 0 ≤ n ∧
      ((0:ℚ) ≤ 0 → n = ⌊(100:ℚ) * (1/100) / max (1/100) (0 - 0)⌋) :=
  ⟨by norm_num,
   position_size_nonneg 100 0 0 (1/100) (by norm_num) (by norm_num) (by norm_num)
     (by norm_num)⟩

/-- C5 helper direction is separate; C4: `position_size` computes
`floor((buying_power*risk_pct) / max(0.01, entry-stop))`, reduced to
`floor(buying_power/entry)` exactly when the unclamped cost
`shares*entry` exceeds `buying_power` (stated for non-negative buying
power and risk fraction, for which the final `max(0, shares)` of the
source is the identity), and the two spec examples evaluate to 1000
and 5. -/
theorem position_size_formula :
    (∀ bp entry stop pct : ℚ, 0 ≤ bp → 0 ≤ pct →
       position_size bp entry stop pct =
         .ok (if bp < (⌊bp * pct / max (1/100) (entry - stop)⌋ : ℚ) * entry
              then ⌊bp / entry⌋
              else ⌊bp * pct / max (1/100) (entry - stop)⌋)) ∧
    position_size 100000 100 99 RISK_PCT_PER_TRADE = .ok 1000 ∧
    position_size 500 100 99 RISK_PCT_PER_TRADE = .ok 5 := by
  refine ⟨?_, by with_unfolding_all rfl, by with_unfolding_all rfl⟩
  intro bp entry stop pct hbp hpct
  have hpsr : (0:ℚ) < max (1/100) (entry - stop) :=
    lt_of_lt_of_le (by norm_num) (le_max_left _ _)
  have hsh : (0:ℤ) ≤ ⌊bp * pct / max (1/100) (entry - stop)⌋ :=
    Int.floor_nonneg.mpr (div_nonneg (mul_nonneg hbp hpct) hpsr.le)
  unfold position_size
  simp only [pydiv, if_neg hpsr.ne']
  by_cases hclamp : bp < (⌊bp * pct / max (1/100) (entry - stop)⌋ : ℚ) * entry
  · rw [if_pos hclamp, if_pos hclamp]
    have hepos : 0 < entry := by
      by_contra hne
      push_neg at hne
      have hle : (⌊bp * pct / max (1/100) (entry - stop)⌋ : ℚ) * entry ≤ 0 :=
        mul_nonpos_of_nonneg_of_nonpos (by exact_mod_cast hsh) hne
      exact absurd (lt_of_lt_of_le hclamp hle) (not_lt.mpr hbp)
    rw [if_neg hepos.ne']
    have hfl : (0:ℤ) ≤ ⌊bp / entry⌋ := Int.floor_nonneg.mpr (div_nonneg hbp hepos.le)
    exact congrArg Except.ok (max_eq_right hfl)
  · rw [if_neg hclamp, if_neg hclamp, max_eq_right hsh]


/-- C9: when the open-position count at cycle start reaches
`MAX_CONCURRENT_POS`, the cycle submits no order and performs no Screener
evaluation: the result is `.ok []` whatever the bar and snapshot reads
would have returned. -/
theorem position_cap_skips_cycle (env : Env)
    (hcap : MAX_CONCURRENT_POS ≤ (list_positions env.positionsRes).length) :
    scan_and_trade env = .ok [] ∧
    ∀ b s, scan_and_trade ⟨env.acct, env.positionsRes, b, s⟩ = .ok [] := by
  have key : ∀ b s, scan_and_trade ⟨env.acct, env.positionsRes, b, s⟩ = .ok [] := by
    intro b s
    cases hacct : env.acct with
    | none => simp only [scan_and_trade, hacct]
    | some acct =>
      simp only [scan_and_trade, hacct]
      by_cases hb : acct.trading_blocked = true
      · rw [if_pos hb]
      · rw [if_neg hb, if_pos hcap]
  refine ⟨?_, key⟩
  have henv : env = ⟨env.acct, env.positionsRes, env.bars, env.snap⟩ := rfl
  rw [henv]
  exact key env.bars env.snap

theorem position_cap_skips_cycle_witness :
    MAX_CONCURRENT_POS ≤ (list_positions fullPosEnv.positionsRes).length ∧
    scan_and_trade fullPosEnv = .ok [] ∧
    scan_and_trade ⟨fullPosEnv.acct, fullPosEnv.positionsRes,
                   fun _ => none, fun _ => none⟩ = .ok [] :=
  ⟨by decide,
   (position_cap_skips_cycle fullPosEnv (by decide)).1,
   (position_cap_skips_cycle fullPosEnv (by decide)).2 (fun _ => none) (fun _ => none)⟩

theorem collect_candidates_congr (e1 e2 : Env) (hb : e1.bars = e2.bars)
    (hs : e1.snap = e2.snap) :
    ∀ ss : List String, collect_candidates e1 ss = collect_candidates e2 ss := by
  intro ss
  induction ss with
  | nil => rfl
  | cons s rest ih =>
    simp only [collect_candidates, hb, hs, ih]

/-- C10: a failed positions fetch (or a non-list payload) makes
`list_positions` return `[]`, and the cycle then proceeds exactly as if
zero positions were open, so the concurrency-cap check can never abort
such a cycle. -/
theorem positions_fetch_failure_open (env : Env)
    (h : env.positionsRes = none ∨ env.positionsRes = some .nonlist) :
    list_positions env.positionsRes = [] ∧
    scan_and_trade env = scan_and_trade ⟨env.acct, some (.plist []), env.bars, env.snap⟩ := by
  have hlist : list_positions env.positionsRes = [] := by
    rcases h with h | h <;> rw [h] <;> rfl
  refine ⟨hlist, ?_⟩
  cases hacct : env.acct with
  | none => simp only [scan_and_trade, hacct]
  | some acct =>
    simp only [scan_and_trade, hacct]
    rw [hlist,
        collect_candidates_congr env ⟨env.acct, some (.plist []), env.bars, env.snap⟩ rfl rfl
          (UNIVERSE.take MAX_SYMBOLS_PER_SCAN), hacct]
    rfl

theorem positions_fetch_failure_open_witness :
    (posFailEnv.positionsRes = none ∨ posFailEnv.positionsRes = some .nonlist) ∧
    (list_positions posFailEnv.positionsRes = [] ∧
     scan_and_trade posFailEnv =
       scan_and_trade ⟨posFailEnv.acct, some (.plist []), posFailEnv.bars, posFailEnv.snap⟩) :=
  ⟨Or.inl rfl, positions_fetch_failure_open posFailEnv (Or.inl rfl)⟩

/-- C7: for a bar history long enough to reach the volume-surge stage
(the Screener requires at least 40 bars, so `len(vols) > 21` always holds
there and the 30-bar fallback of the source is unreachable), the surge
condition holds exactly when the current bar volume exceeds 1.5 times the
average volume of the 20 bars preceding the current one. -/
theorem volume_surge_iff (vols : List ℚ) (avg_vol vlast : ℚ) (surge : Bool)
    (hlen : 40 ≤ vols.length)
    (hlast : pyLast vols = .ok vlast)
    (hsurge : vol_surge_check vols avg_vol = .ok surge) :
    surge = true ↔ (3/2) * ((priorVols20 vols).sum / 20) < vlast := by
  have h21 : 21 < vols.length := by omega
  have hwin : pySliceNegNeg vols 21 1 = priorVols20 vols := by
    unfold pySliceNegNeg priorVols20 lastN
    rw [List.dropLast_eq_take, List.length_take, Nat.min_eq_left (by omega), Nat.sub_sub]
  rcases hbase : pydiv (pySliceNegNeg vols 21 1).sum 20 with e | base
  · unfold pydiv at hbase
    rw [if_neg (by norm_num : (20:ℚ) ≠ 0)] at hbase
    cases hbase
  · simp only [vol_surge_check, hlast, if_pos h21, hbase] at hsurge
    injection hsurge with hsurge
    unfold pydiv at hbase
    rw [if_neg (by norm_num : (20:ℚ) ≠ 0)] at hbase
    injection hbase with hbase
    rw [← hsurge, ← hwin, ← hbase]
    exact decide_eq_true_iff

theorem volume_surge_iff_witness :
    40 ≤ (List.replicate 39 (400000:ℚ) ++ [10000000]).length ∧
    pyLast (List.replicate 39 (400000:ℚ) ++ [10000000]) = .ok 10000000 ∧
    vol_surge_check (List.replicate 39 (400000:ℚ) ++ [10000000]) 0 = .ok true ∧
    (true = true ↔
      (3/2) * ((priorVols20 (List.replicate 39 (400000:ℚ) ++ [10000000])).sum / 20) < 10000000) :=
  ⟨by with_unfolding_all decide, by with_unfolding_all rfl, by with_unfolding_all rfl,
   volume_surge_iff (List.replicate 39 (400000:ℚ) ++ [10000000]) 0 10000000 true
     (by with_unfolding_all decide) (by with_unfolding_all rfl) (by with_unfolding_all rfl)⟩

/-- C6: the breakout gate is the conjunction of the price condition and
the volume-surge condition: with the values the Screener computes pinned
by the hypotheses, no Candidate is emitted when the price condition fails
(`last > hi20` is false), and none is emitted when the volume surge
fails, regardless of the other condition. -/
theorem breakout_gate_conjunction (sym : String) (bars : List Bar)
    (snap? : Option Snapshot) (last : ℚ) (hi20 : PyFloat) (avg_vol : ℚ) (surge : Bool)
    (hlast : pyLast (bars.map Bar.c) = .ok last)
    (havg : pydiv (pySliceLast (bars.map Bar.v) 30).sum
              ((min 30 (bars.map Bar.v).length : ℕ) : ℚ) = .ok avg_vol)
    (hhi : highest (pyDropLast (bars.map Bar.h)) 20 = .ok hi20)
    (hsurge : vol_surge_check (bars.map Bar.v) avg_vol = .ok surge) :
    (pyGT last hi20 = false → analyze_symbol sym (some bars) snap? = .ok none) ∧
    (surge = false → analyze_symbol sym (some bars) snap? = .ok none) := by
  have main : (pyGT last hi20 && surge) = false →
      analyze_symbol sym (some bars) snap? = .ok none := by
    intro hff
    simp only [analyze_symbol]
    by_cases hlen : bars.length < 40
    · rw [if_pos hlen]
    · rw [if_neg hlen]
      simp only [hlast]
      by_cases hband : MIN_PRICE ≤ last ∧ last ≤ MAX_PRICE
      · rw [if_neg (not_not_intro hband)]
        simp only [havg]
        by_cases hmin : avg_vol < MIN_AVG_VOL
        · rw [if_pos hmin]
        · rw [if_neg hmin]
          simp only [hhi, hsurge]
          rw [if_pos (by rw [hff]; exact Bool.false_ne_true)]
      · rw [if_pos hband]
  exact ⟨fun h => main (by rw [h, Bool.false_and]),
         fun h => main (by rw [h, Bool.and_false])⟩

theorem breakout_gate_conjunction_witness :
    pyLast (flat40.map Bar.c) = .ok 10 ∧
    pydiv (pySliceLast (flat40.map Bar.v) 30).sum
      ((min 30 (flat40.map Bar.v).length : ℕ) : ℚ) = .ok 400000 ∧
    highest (pyDropLast (flat40.map Bar.h)) 20 = .ok (.val 10) ∧
    vol_surge_check (flat40.map Bar.v) 400000 = .ok false ∧
    ((pyGT 10 (.val 10) = false →
        analyze_symbol "Z" (some flat40) (some activeSnap) = .ok none) ∧
     (false = false →
        analyze_symbol "Z" (some flat40) (some activeSnap) = .ok none)) :=
  ⟨by with_unfolding_all rfl, by with_unfolding_all rfl, by with_unfolding_all rfl,
   by with_unfolding_all rfl,
   breakout_gate_conjunction "Z" flat40 (some activeSnap) 10 (.val 10) 400000 false
     (by with_unfolding_all rfl) (by with_unfolding_all rfl) (by with_unfolding_all rfl)
     (by with_unfolding_all rfl)⟩


theorem analyze_ok_some (sym : String) (bars? : Option (List Bar))
    (snap? : Option Snapshot) (cand : Candidate)
    (h : analyze_symbol sym bars? snap? = .ok (some cand)) :
    ∃ bars av, bars? = some bars ∧
      pyLast (bars.map Bar.c) = .ok cand.entry ∧
      atr (bars.map Bar.h) (bars.map Bar.l) (bars.map Bar.c) 14 = .ok (.val av) ∧
      cand.atr = av ∧
      MIN_PRICE ≤ cand.entry ∧ cand.entry ≤ MAX_PRICE ∧
      cand.stop = cand.entry - STOP_ATR_MULT * cand.atr ∧
      cand.take = cand.entry + TAKE_PROFIT_ATR_MULT * cand.atr := by
  cases bars? with
  | none =>
    simp only [analyze_symbol] at h
    injection h with h
    cases h
  | some bars =>
    simp only [analyze_symbol] at h
    by_cases hlen : bars.length < 40
    · rw [if_pos hlen] at h; injection h with h; cases h
    rw [if_neg hlen] at h
    rcases hlast : pyLast (List.map Bar.c bars) with e | last <;> simp only [hlast] at h
    · cases h
    by_cases hband : MIN_PRICE ≤ last ∧ last ≤ MAX_PRICE
    case neg => rw [if_pos hband] at h; injection h with h; cases h
    rw [if_neg (not_not_intro hband)] at h
    rcases havg : pydiv (pySliceLast (List.map Bar.v bars) 30).sum
        ((min 30 (List.map Bar.v bars).length : ℕ) : ℚ) with e | avg <;>
      simp only [havg] at h
    · cases h
    by_cases hmin : avg < MIN_AVG_VOL
    · rw [if_pos hmin] at h; injection h with h; cases h
    rw [if_neg hmin] at h
    rcases hhi : highest (pyDropLast (List.map Bar.h bars)) 20 with e | hi <;>
      simp only [hhi] at h
    · cases h
    rcases hs : vol_surge_check (List.map Bar.v bars) avg with e | surge <;>
      simp only [hs] at h
    · cases h
    by_cases hbk : ¬ (pyGT last hi && surge) = true
    · rw [if_pos hbk] at h; injection h with h; cases h
    rw [if_neg hbk] at h
    rcases hatr : atr (List.map Bar.h bars) (List.map Bar.l bars)
        (List.map Bar.c bars) 14 with e | a <;> simp only [hatr] at h
    · cases h
    rcases hav : a with _ | av <;> simp only [hav] at h hatr
    · injection h with h; cases h
    rcases hsnap : snap? with _ | snap <;> simp only [hsnap] at h
    · injection h with h; cases h
    by_cases hhalt : snap.trading_status = some "Halted" ∨ snap.trading_status = some "T1"
    · rw [if_pos hhalt] at h; injection h with h; cases h
    rw [if_neg hhalt] at h
    rcases hhiv : hi with _ | hv <;> simp only [hhiv] at h
    · injection h with h; cases h
    · injection h with h
      injection h with h
      subst h
      exact ⟨bars, av, rfl, hlast, hatr, rfl, hband.1, hband.2, rfl, rfl⟩


/-- C2 (amended: the strict inequalities fail on degenerate histories
whose 14 most recent true ranges are all zero, where ATR = 0 and the
emitted candidate has stop = entry = take; the source has no check
preventing this submission): every Candidate emitted by the Screener
satisfies `stop ≤ entry ≤ take`, with both inequalities strict whenever
its ATR value is positive. -/
theorem candidate_stop_entry_take_ordering (sym : String) (bars? : Option (List Bar))
    (snap? : Option Snapshot) (cand : Candidate)
    (h : analyze_symbol sym bars? snap? = .ok (some cand)) :
    cand.stop ≤ cand.entry ∧ cand.entry ≤ cand.take ∧
    (0 < cand.atr → cand.stop < cand.entry ∧ cand.entry < cand.take) := by
  obtain ⟨bars, av, -, -, hatr, hav, -, -, hstop, htake⟩ :=
    analyze_ok_some sym bars? snap? cand h
  have hnn : 0 ≤ av := atr_val_nonneg _ _ _ _ _ hatr
  rw [← hav] at hnn
  rw [hstop, htake]
  unfold STOP_ATR_MULT TAKE_PROFIT_ATR_MULT
  refine ⟨by linarith, by linarith, fun hpos => ⟨by linarith, by linarith⟩⟩

/-- C2 counterexample: on 39 flat bars (h = l = c = 10) followed by a
close at 11 on a tenfold volume spike, every ATR(14) true range is 0, and
the Screener emits the candidate with entry = stop = take = 11: the
claimed strict `stop < entry < take` is violated by an emitted
Candidate. -/
theorem candidate_invariant_violated_at_zero_atr :
    analyze_symbol "AAPL" (some cexBars) (some activeSnap) = .ok (some cexCand) ∧
    ¬ (cexCand.stop < cexCand.entry ∧ cexCand.entry < cexCand.take) :=
  ⟨by with_unfolding_all rfl, by with_unfolding_all decide⟩

theorem candidate_stop_entry_take_ordering_witness :
    cexCand.stop ≤ cexCand.entry ∧ cexCand.entry ≤ cexCand.take ∧
    (0 < cexCand.atr → cexCand.stop < cexCand.entry ∧ cexCand.entry < cexCand.take) :=
  candidate_stop_entry_take_ordering "AAPL" (some cexBars) (some activeSnap) cexCand
    (by with_unfolding_all rfl)

/-- C5: every emitted Candidate has `stop = close − 1.0×ATR` and
`take = close + 2.0×ATR`, where close is the last bar close (the
candidate entry) and ATR the value of `atr(highs, lows, closes, 14)`;
and the spec scenario — last close 110, prior 20-bar high 108, ATR(14)
= 2, volume surge, tradeable status, buying power 50000, risk 1% —
produces the candidate with stop = 108, take = 114 and sized quantity
`floor(500/2) = 250`. -/
theorem candidate_stop_take_from_atr :
    (∀ (sym : String) (bars : List Bar) (snap? : Option Snapshot) (cand : Candidate),
       analyze_symbol sym (some bars) snap? = .ok (some cand) →
       pyLast (bars.map Bar.c) = .ok cand.entry ∧
       atr (bars.map Bar.h) (bars.map Bar.l) (bars.map Bar.c) 14 = .ok (.val cand.atr) ∧
       cand.stop = cand.entry - STOP_ATR_MULT * cand.atr ∧
       cand.take = cand.entry + TAKE_PROFIT_ATR_MULT * cand.atr) ∧
    analyze_symbol "X" (some scenarioBars) (some activeSnap) = .ok (some scenarioCand) ∧
    scenarioCand.stop = 108 ∧ scenarioCand.take = 114 ∧ scenarioCand.atr = 2 ∧
    position_size 50000 scenarioCand.entry scenarioCand.stop RISK_PCT_PER_TRADE = .ok 250 := by
  refine ⟨?_, by with_unfolding_all rfl, by with_unfolding_all rfl,
          by with_unfolding_all rfl, by with_unfolding_all rfl, by with_unfolding_all rfl⟩
  intro sym bars snap? cand h
  obtain ⟨bars', av, hb, hlast, hatr, hav, -, -, hstop, htake⟩ :=
    analyze_ok_some sym (some bars) snap? cand h
  injection hb with hb
  subst hb
  exact ⟨hlast, by rw [hav]; exact hatr, hstop, htake⟩

theorem candidate_stop_take_from_atr_witness :
    analyze_symbol "X" (some scenarioBars) (some activeSnap) = .ok (some scenarioCand) ∧
    (pyLast (scenarioBars.map Bar.c) = .ok scenarioCand.entry ∧
     atr (scenarioBars.map Bar.h) (scenarioBars.map Bar.l) (scenarioBars.map Bar.c) 14 =
       .ok (.val scenarioCand.atr) ∧
     scenarioCand.stop = scenarioCand.entry - STOP_ATR_MULT * scenarioCand.atr ∧
     scenarioCand.take = scenarioCand.entry + TAKE_PROFIT_ATR_MULT * scenarioCand.atr) :=
  ⟨by with_unfolding_all rfl,
   candidate_stop_take_from_atr.1 "X" scenarioBars (some activeSnap) scenarioCand
     (by with_unfolding_all rfl)⟩


theorem position_size_isOk (bp entry stop pct : ℚ) (h : 0 < entry) :
    ∃ q, position_size bp entry stop pct = .ok q := by
  have hpsr : (0:ℚ) < max (1/100) (entry - stop) :=
    lt_of_lt_of_le (by norm_num) (le_max_left _ _)
  unfold position_size
  simp only [pydiv, if_neg hpsr.ne']
  by_cases hclamp : bp < (⌊bp * pct / max (1/100) (entry - stop)⌋ : ℚ) * entry
  · rw [if_pos hclamp, if_neg h.ne']
    exact ⟨_, rfl⟩
  · rw [if_neg hclamp]
    exact ⟨_, rfl⟩

theorem trade_loop_length (bp : ℚ) :
    ∀ (l : List Candidate) (os : List BracketOrder),
      trade_loop bp l = .ok os → os.length ≤ 1 := by
  intro l
  induction l with
  | nil =>
    intro os h
    injection h with h
    rw [← h]
    simp
  | cons idea rest ih =>
    intro os h
    rcases hps : position_size bp idea.entry idea.stop RISK_PCT_PER_TRADE with e | qty <;>
      simp only [trade_loop, hps] at h
    · cases h
    by_cases hq : qty ≤ 0
    · rw [if_pos hq] at h
      exact ih os h
    · rw [if_neg hq, if_neg (by simp [DRY_RUN] : ¬ DRY_RUN = true)] at h
      injection h with h
      rw [← h]
      simp

theorem trade_loop_eq_firstViable (bp : ℚ) :
    ∀ l : List Candidate,
      (∀ c ∈ l, ∃ q, position_size bp c.entry c.stop RISK_PCT_PER_TRADE = .ok q) →
      trade_loop bp l = .ok (match firstViable bp l with
                             | some (c, q) => [mkOrder c q]
                             | none => ([] : List BracketOrder)) := by
  intro l
  induction l with
  | nil => intro _; rfl
  | cons idea rest ih =>
    intro hall
    obtain ⟨q, hq⟩ := hall idea (List.mem_cons_self _ _)
    simp only [trade_loop, firstViable, hq]
    by_cases hqle : q ≤ 0
    · rw [if_pos hqle, if_neg (not_lt.mpr hqle)]
      exact ih (fun c hc => hall c (List.mem_cons_of_mem _ hc))
    · rw [if_neg hqle, if_pos (not_le.mp hqle),
          if_neg (by simp [DRY_RUN] : ¬ DRY_RUN = true)]

theorem collect_candidates_mem (env : Env) :
    ∀ (ss : List String) (cs : List Candidate),
      collect_candidates env ss = .ok cs →
      ∀ c ∈ cs, ∃ s, analyze_symbol s (env.bars s) (env.snap s) = .ok (some c) := by
  intro ss
  induction ss with
  | nil =>
    intro cs h c hc
    injection h with h
    rw [← h] at hc
    cases hc
  | cons s rest ih =>
    intro cs h c hc
    rcases ha : analyze_symbol s (env.bars s) (env.snap s) with e | (_ | idea) <;>
      simp only [collect_candidates, ha] at h
    · cases h
    · exact ih cs h c hc
    · rcases hrest : collect_candidates env rest with e | tail <;> simp only [hrest] at h
      · cases h
      injection h with h
      rw [← h] at hc
      rcases List.mem_cons.mp hc with h1 | h1
      · exact ⟨s, by rw [ha, h1]⟩
      · exact ih tail hrest c h1

/-- C1 (amended: a cycle whose produced Candidates all size to zero — for
instance with zero buying power — submits no order, so "at least one
Candidate" must be strengthened to "at least one Candidate whose sized
quantity is positive"): every cycle submits at most one bracket order,
and a cycle that reaches the trading stage (account fetched, not blocked,
open positions below the cap, candidate collection returning `cs`)
submits exactly the order of the first candidate with positive sized
quantity in the descending-strength ranking of `cs` — one order when such
a candidate exists (in particular whenever `cs` is non-empty and some
candidate sizes positive), and zero orders otherwise (in particular when
`cs` is empty). -/
theorem scan_and_trade_order_policy (env : Env) (orders : List BracketOrder)
    (h : scan_and_trade env = .ok orders) :
    orders.length ≤ 1 ∧
    (∀ (acct : Account) (cs : List Candidate),
       env.acct = some acct → acct.trading_blocked = false →
       (list_positions env.positionsRes).length < MAX_CONCURRENT_POS →
       collect_candidates env (UNIVERSE.take MAX_SYMBOLS_PER_SCAN) = .ok cs →
       orders = (match firstViable acct.buying_power (rank_candidates cs) with
                 | some (c, q) => [mkOrder c q]
                 | none => ([] : List BracketOrder))) := by
  constructor
  · rcases hacct : env.acct with _ | acct <;> simp only [scan_and_trade, hacct] at h
    · injection h with h
      rw [← h]
      simp
    by_cases hb : acct.trading_blocked = true
    · rw [if_pos hb] at h
      injection h with h
      rw [← h]
      simp
    rw [if_neg hb] at h
    by_cases hcap : MAX_CONCURRENT_POS ≤ (list_positions env.positionsRes).length
    · rw [if_pos hcap] at h
      injection h with h
      rw [← h]
      simp
    rw [if_neg hcap] at h
    rcases hcoll : collect_candidates env (UNIVERSE.take MAX_SYMBOLS_PER_SCAN) with e | cs <;>
      simp only [hcoll] at h
    · cases h
    by_cases hemp : cs.isEmpty = true
    · rw [if_pos hemp] at h
      injection h with h
      rw [← h]
      simp
    · rw [if_neg hemp] at h
      exact trade_loop_length acct.buying_power (rank_candidates cs) orders h
  · intro acct cs hacct hnb hcap hcoll
    simp only [scan_and_trade, hacct] at h
    rw [if_neg (by rw [hnb]; exact Bool.false_ne_true)] at h
    rw [if_neg (not_le.mpr hcap)] at h
    simp only [hcoll] at h
    by_cases hemp : cs.isEmpty = true
    · rw [if_pos hemp] at h
      injection h with h
      have hnil : cs = [] := List.isEmpty_iff.mp hemp
      rw [← h, hnil]
      simp only [rank_candidates, List.mergeSort_nil, firstViable]
    · rw [if_neg hemp] at h
      have hall : ∀ c ∈ rank_candidates cs, ∃ q,
          position_size acct.buying_power c.entry c.stop RISK_PCT_PER_TRADE = .ok q := by
        intro c hc
        have hc' : c ∈ cs := by
          unfold rank_candidates at hc
          exact List.mem_mergeSort.mp hc
        obtain ⟨s, hs⟩ := collect_candidates_mem env _ cs hcoll c hc'
        obtain ⟨bars, av, -, -, -, -, hmin, -, -, -⟩ :=
          analyze_ok_some s (env.bars s) (env.snap s) c hs
        exact position_size_isOk _ _ _ _
          (lt_of_lt_of_le (by norm_num [MIN_PRICE]) hmin)
      rw [trade_loop_eq_firstViable acct.buying_power (rank_candidates cs) hall] at h
      injection h with h
      exact h.symm

/-- C1 counterexample: in `zeroBpEnv` (zero buying power) the Screener
produces exactly one candidate over the scanned universe, yet the cycle
submits zero orders — not exactly one — because the candidate sizes to
zero. -/
theorem one_candidate_zero_orders :
    collect_candidates zeroBpEnv (UNIVERSE.take MAX_SYMBOLS_PER_SCAN) = .ok [cexCand] ∧
    scan_and_trade zeroBpEnv = .ok [] :=
  ⟨by with_unfolding_all rfl, by with_unfolding_all rfl⟩

theorem scan_and_trade_order_policy_witness :
    scan_and_trade zeroBpEnv = .ok [] ∧
    ([] : List BracketOrder).length ≤ 1 ∧
    ([] : List BracketOrder) =
      (match firstViable 0 (rank_candidates [cexCand]) with
       | some (c, q) => [mkOrder c q]
       | none => ([] : List BracketOrder)) := by
  refine ⟨by with_unfolding_all rfl, ?_, ?_⟩
  · exact (scan_and_trade_order_policy zeroBpEnv [] (by with_unfolding_all rfl)).1
  · exact (scan_and_trade_order_policy zeroBpEnv [] (by with_unfolding_all rfl)).2
      ⟨false, 0, 0⟩ [cexCand] rfl rfl (by decide) (by with_unfolding_all rfl)


theorem position_size_formula_witness :
    (0:ℚ) ≤ 200 ∧ (0:ℚ) ≤ 1/100 ∧
    position_size 200 10 9 (1/100) =
      .ok (if (200:ℚ) < (⌊(200:ℚ) * (1/100) / max (1/100) (10 - 9)⌋ : ℚ) * 10
           then ⌊(200:ℚ) / 10⌋
           else ⌊(200:ℚ) * (1/100) / max (1/100) (10 - 9)⌋) :=
  ⟨by norm_num, by norm_num,
   position_size_formula.1 200 10 9 (1/100) (by norm_num) (by norm_num)⟩

end Aurum
